import Mathlib

/-!
# Verification of the rndnet evolutionary network trainer

A shallow embedding of the rndnet repository (Go) in Lean 4, together with
theorems settling the specification claims C1 .. C10.

Machine integers are modelled as `Nat` (all stream states are `uint32`
values, i.e. below `2^32`; the step function preserves this).  `float32`
values produced by exact operations (copies, swaps) are modelled as exact
rationals; the `uint32 → float32` conversion is modelled exactly by
round-to-nearest-even on 24-bit significands (`toFloat32`).  Calls into the
Go standard library (`math.Exp`, `math.Sqrt`) are abstracted as function
parameters `fexp fsqrt : ℚ → ℚ`; theorems that need facts about them take
those facts as hypotheses.  Go slices are Lean lists; a Go function that
would panic (out-of-range index) or that loops on a random condition is
embedded with `Option` results and explicit fuel.
-/

set_option maxRecDepth 40000

namespace Rndnet

/-! ## The deterministic stream generator (`Rand`, main.go / shared.go) -/

/-- `LFSRMask` is a LFSR mask with a maximum period (source constant `0x80000057`). -/
def LFSRMask : Nat := 0x80000057

/-- `LFSRInit` is an initial LFSR state (source constant `0x55555555`). -/
def LFSRInit : Nat := 0x55555555

/-- `NumGenomes` is the number of genomes (source constant 256). -/
def NumGenomes : Nat := 256

/-- One advance of the 32-bit Galois LFSR, the body shared by `Rand.Uint32`
and `Rand.Float32`:
`if lfsr&1 == 1 { lfsr = (lfsr >> 1) ^ LFSRMask } else { lfsr = lfsr >> 1 }`. -/
def lfsrStep (s : Nat) : Nat :=
  if s % 2 = 1 then Nat.xor (s / 2) LFSRMask else s / 2

/-- `Rand` is a random number generator: a single `uint32` state. -/
abbrev Rand := Nat

/-- `Rand.Uint32` returns a random uint32: it advances the state once and
returns the new state (source: `shared.go`, `func (r *Rand) Uint32() uint32`).
The result pair is `(returned value, new stored state)`. -/
def Rand.Uint32 (r : Rand) : Nat × Rand :=
  (lfsrStep r, lfsrStep r)

/-- Round-to-nearest-even conversion of a `uint32` value (`n < 2^32`) to the
exact integer value of the IEEE-754 binary32 float `float32(n)`: values below
`2^24` are exact; otherwise the value is rounded to a multiple of `2^e` where
`2^(23+e) ≤ n < 2^(24+e)`, ties going to an even 24-bit significand.
The exponent ladder is written out for the `uint32` range (`e ≤ 8`). -/
def toFloat32 (n : Nat) : Nat :=
  if n < 2 ^ 24 then n
  else
    let e : Nat :=
      if n < 2 ^ 25 then 1 else if n < 2 ^ 26 then 2 else if n < 2 ^ 27 then 3
      else if n < 2 ^ 28 then 4 else if n < 2 ^ 29 then 5 else if n < 2 ^ 30 then 6
      else if n < 2 ^ 31 then 7 else 8
    let q := n / 2 ^ e
    let r := n % 2 ^ e
    let h := 2 ^ (e - 1)
    if r < h then q * 2 ^ e
    else if h < r then (q + 1) * 2 ^ e
    else if q % 2 = 0 then q * 2 ^ e else (q + 1) * 2 ^ e

/-- `Rand.Float32` returns a random float32 between 0 and 1 (source:
`shared.go`, `func (r *Rand) Float32() float32`, body
`return float32(lfsr) / ((1 << 32) - 1)`).  The untyped Go constant
`(1<<32)-1 = 4294967295` is itself converted to `float32`, which rounds it up
to `2^32` exactly; the subsequent IEEE division of `float32(lfsr)` by the
power of two `2^32` is exact.  Hence the returned value is exactly
`toFloat32 newState / 2^32` as a rational.  Result pair:
`(returned value, new stored state)`. -/
def Rand.Float32 (r : Rand) : ℚ × Rand :=
  ((toFloat32 (lfsrStep r) : ℚ) / 4294967296, lfsrStep r)

/-- Modelled from the spec: `advance(state) -> (newState, bit)` where
`bit = state & 1` and `newState = bit ? (state >> 1) ^ TAP_MASK : state >> 1`.
Used to compare the source generator against the spec contract. -/
def advanceSpec (s : Nat) : Nat × Nat :=
  (if s % 2 = 1 then Nat.xor (s / 2) LFSRMask else s / 2, s % 2)

theorem lfsrStep_lt (s : Nat) (h : s < 2 ^ 32) : lfsrStep s < 2 ^ 32 := by
  unfold lfsrStep
  split
  · exact Nat.xor_lt_two_pow (by omega) (by norm_num [LFSRMask])
  · omega

theorem toFloat32_le (n : Nat) (h : n < 2 ^ 32) : toFloat32 n ≤ 2 ^ 32 := by
  unfold toFloat32
  split
  · omega
  · rename_i h24
    have hq : ∀ e : Nat, n < 2 ^ (24 + e) → 1 ≤ e → e ≤ 8 →
        (if n % 2 ^ e < 2 ^ (e - 1) then n / 2 ^ e * 2 ^ e
         else if 2 ^ (e - 1) < n % 2 ^ e then (n / 2 ^ e + 1) * 2 ^ e
         else if n / 2 ^ e % 2 = 0 then n / 2 ^ e * 2 ^ e
         else (n / 2 ^ e + 1) * 2 ^ e) ≤ 2 ^ 32 := by
      intro e hlt h1 h8
      have hqlt : n / 2 ^ e < 2 ^ 24 := by
        have : n < 2 ^ 24 * 2 ^ e := by
          calc n < 2 ^ (24 + e) := hlt
          _ = 2 ^ 24 * 2 ^ e := by rw [pow_add]
        exact Nat.div_lt_of_lt_mul (by omega)
      have hstep : (n / 2 ^ e + 1) * 2 ^ e ≤ 2 ^ 32 := by
        calc (n / 2 ^ e + 1) * 2 ^ e ≤ 2 ^ 24 * 2 ^ e := by
              exact Nat.mul_le_mul_right _ (by omega)
        _ = 2 ^ (24 + e) := by rw [pow_add]
        _ ≤ 2 ^ 32 := Nat.pow_le_pow_right (by norm_num) (by omega)
      have hstep0 : n / 2 ^ e * 2 ^ e ≤ 2 ^ 32 := by
        calc n / 2 ^ e * 2 ^ e ≤ (n / 2 ^ e + 1) * 2 ^ e := by
              exact Nat.mul_le_mul_right _ (by omega)
        _ ≤ 2 ^ 32 := hstep
      split
      · exact hstep0
      · split
        · exact hstep
        · split
          · exact hstep0
          · exact hstep
    split
    · exact hq 1 (by omega) (by omega) (by omega)
    · split
      · exact hq 2 (by omega) (by omega) (by omega)
      · split
        · exact hq 3 (by omega) (by omega) (by omega)
        · split
          · exact hq 4 (by omega) (by omega) (by omega)
          · split
            · exact hq 5 (by omega) (by omega) (by omega)
            · split
              · exact hq 6 (by omega) (by omega) (by omega)
              · split
                · exact hq 7 (by omega) (by omega) (by omega)
                · exact hq 8 (by omega) (by omega) (by omega)

/-- C1 (confirmed).  One advance of the generator follows the spec contract:
the new state is `(s >> 1) ^ 0x80000057` when the low bit of `s` is 1 and
`s >> 1` otherwise; `Uint32` returns the new state, and `Float32` stores the
same new state.  Starting from state `0x55555555` (odd), the first `Uint32`
draw equals `(0x55555555 >> 1) ^ 0x80000057 = 0xAAAAAAFD`. -/
theorem c1_lfsr_advance (s : Nat) :
    (Rand.Uint32 s).1 = (advanceSpec s).1 ∧
    (Rand.Uint32 s).2 = (advanceSpec s).1 ∧
    (Rand.Float32 s).2 = (advanceSpec s).1 ∧
    (Rand.Uint32 LFSRInit).1 = Nat.xor (LFSRInit / 2) LFSRMask ∧
    Nat.xor (LFSRInit / 2) LFSRMask = 0xAAAAAAFD := by
  refine ⟨rfl, rfl, rfl, ?_, by decide⟩
  show lfsrStep LFSRInit = Nat.xor (LFSRInit / 2) LFSRMask
  decide

/-- C8 counterexample.  The nonzero state `0xFFFFFFFF` (itself the successor
of state `0xFFFFFF51`, hence reachable) advances to `0xFFFFFFA8`, whose
`float32` conversion rounds up to `2^32` exactly, so `Float32` returns
exactly 1 — not an element of the half-open interval `[0, 1)` claimed. -/
theorem c8_float32_range_counterexample :
    (0xFFFFFFFF : Nat) ≠ 0 ∧
    lfsrStep 0xFFFFFF51 = 0xFFFFFFFF ∧
    (Rand.Float32 0xFFFFFFFF).2 = 0xFFFFFFA8 ∧
    (Rand.Float32 0xFFFFFFFF).1 = 1 ∧
    ¬ (Rand.Float32 0xFFFFFFFF).1 < 1 := by
  refine ⟨by decide, by decide, by decide, ?_, ?_⟩
  · show (toFloat32 (lfsrStep 0xFFFFFFFF) : ℚ) / 4294967296 = 1
    have h : toFloat32 (lfsrStep 0xFFFFFFFF) = 4294967296 := by decide
    rw [h]; norm_num
  · show ¬ (toFloat32 (lfsrStep 0xFFFFFFFF) : ℚ) / 4294967296 < 1
    have h : toFloat32 (lfsrStep 0xFFFFFFFF) = 4294967296 := by decide
    rw [h]; norm_num

/-- C8 (corrected).  `Float32` advances the state exactly one step and
returns the exact value of the float expression
`float32(newState) / float32(2^32 - 1)`, namely
`toFloat32 newState / 2^32`; for every 32-bit state the returned value lies
in the closed interval `[0, 1]` (the right endpoint 1 is attained, see the
counterexample, so `[0, 1)` is wrong). -/
theorem c8_float32_amended (s : Nat) (h : s < 2 ^ 32) :
    (Rand.Float32 s).2 = lfsrStep s ∧
    (Rand.Float32 s).1 = (toFloat32 (lfsrStep s) : ℚ) / 4294967296 ∧
    0 ≤ (Rand.Float32 s).1 ∧ (Rand.Float32 s).1 ≤ 1 := by
  refine ⟨rfl, rfl, ?_, ?_⟩
  · show (0 : ℚ) ≤ (toFloat32 (lfsrStep s) : ℚ) / 4294967296
    positivity
  · show (toFloat32 (lfsrStep s) : ℚ) / 4294967296 ≤ 1
    rw [div_le_one (by norm_num)]
    have hb := toFloat32_le (lfsrStep s) (lfsrStep_lt s h)
    exact_mod_cast hb

theorem c8_float32_amended_witness :
    (0x55555555 : Nat) < 2 ^ 32 ∧
    0 ≤ (Rand.Float32 0x55555555).1 ∧ (Rand.Float32 0x55555555).1 ≤ 1 := by
  have h : (0x55555555 : Nat) < 2 ^ 32 := by decide
  have hc := c8_float32_amended 0x55555555 h
  exact ⟨h, hc.2.2.1, hc.2.2.2⟩

/-! ## Genomes, fitness values and the sort step

A `float32` fitness is either NaN (possible through overflow of the
exponential) or an exact numeric value; we model it as `Option ℚ` with
`none` standing for NaN.  IEEE comparisons against NaN are false. -/

/-- A fitness value: `none` models NaN, `some x` a numeric `float32` value. -/
abbrev Fit := Option ℚ

/-- IEEE-754 `<` on fitness values: any comparison involving NaN is false.
This is the comparator body of `RealNetworkModel` and `RandomNetworkModel`:
`return genomes[i].Fitness < genomes[j].Fitness` (no NaN handling). -/
def fitLtB (a b : Fit) : Bool :=
  match a, b with
  | some x, some y => decide (x < y)
  | _, _ => false

/-- IEEE-754 `>` between a drawn float and a fitness (`rnd.Float32() > genome.Fitness`
in `get`); false whenever the fitness is NaN. -/
def fltGtB (q : ℚ) (f : Fit) : Bool :=
  match f with
  | some x => decide (x < q)
  | none => false

/-- A genome: a network paired with a `float32` fitness (zero value `0.0`
until evaluated). The network type varies per variant. -/
structure GenomeOf (τ : Type) where
  Network : τ
  Fitness : Fit

/-- Comparator of `RealNetworkModel` / `RandomNetworkModel` (shared.go lines
383-385, random.go lines 136-138): plain `Fitness < Fitness` with no NaN
branch. -/
def plainLessB {τ : Type} (a b : GenomeOf τ) : Bool := fitLtB a.Fitness b.Fitness

/-- Comparator of `SharedNetworkModel` / `ComplexNetworkModel` (shared.go
lines 150-157): `if IsNaN(f_i) { false } else if IsNaN(f_j) { true } else f_i < f_j`. -/
def nanLessB {τ : Type} (a b : GenomeOf τ) : Bool :=
  match a.Fitness with
  | none => false
  | some x =>
    match b.Fitness with
    | none => true
    | some y => decide (x < y)

/-- `sortedB less l` holds when no adjacent pair of `l` is inverted with
respect to `less` — exactly Go's `sort.SliceIsSorted` condition
`!less(l[i+1], l[i])`.  This is the postcondition `sort.Slice` establishes. -/
def sortedB {τ : Type} (less : GenomeOf τ → GenomeOf τ → Bool) : List (GenomeOf τ) → Bool
  | [] => true
  | [_] => true
  | a :: b :: t => (!less b a) && sortedB less (b :: t)

/-- The relational model of `sort.Slice(genomes, less)`:  the result is a
permutation of the input whose adjacent pairs are not inverted.  For a `less`
that is a strict weak order this pins down the usual sortedness; for the
NaN-blind comparators it is exactly what Go guarantees observably. -/
def goSortedOK {τ : Type} (less : GenomeOf τ → GenomeOf τ → Bool)
    (inp out : List (GenomeOf τ)) : Prop :=
  List.Perm inp out ∧ sortedB less out = true

/-- The invariant claimed for the kept genomes: adjacent fitnesses are in
non-decreasing numeric order with NaN only after any value. `Bool` form. -/
def ordOKB (a b : Fit) : Bool :=
  match a, b with
  | some x, some y => decide (x ≤ y)
  | some _, none => true
  | none, none => true
  | none, some _ => false

/-- `fitOrdered l`: the fitnesses of `l` are monotonically non-decreasing with
NaN last (the property asserted by the spec for the truncated population). -/
def fitOrdered {τ : Type} : List (GenomeOf τ) → Bool
  | [] => true
  | [_] => true
  | a :: b :: t => ordOKB a.Fitness b.Fitness && fitOrdered (b :: t)

theorem bandE {a b : Bool} (h : (a && b) = true) : a = true ∧ b = true := by
  cases a <;> cases b <;> simp_all

theorem bandI {a b : Bool} (h1 : a = true) (h2 : b = true) : (a && b) = true := by
  rw [h1, h2]; rfl

theorem sortedB_take {τ : Type} (less : GenomeOf τ → GenomeOf τ → Bool) :
    ∀ (l : List (GenomeOf τ)) (n : Nat), sortedB less l = true →
      sortedB less (l.take n) = true := by
  intro l
  induction l with
  | nil => intro n _; simp [sortedB]
  | cons a t ih =>
    intro n h
    cases n with
    | zero => rfl
    | succ m =>
      cases t with
      | nil => simp [List.take, sortedB]
      | cons b t' =>
        have h' : ((!less b a) && sortedB less (b :: t')) = true := h
        rcases bandE h' with ⟨h1, h2⟩
        cases m with
        | zero => simp [List.take, sortedB]
        | succ k =>
          have hk := ih (k + 1) h2
          show ((!less b a) && sortedB less ((b :: t').take (k + 1))) = true
          exact bandI h1 hk

/-- For the NaN-aware comparator, pairwise non-inversion of an adjacent pair
is exactly the claimed order property of that pair. -/
theorem nanLess_not_iff_ordOK {τ : Type} (a b : GenomeOf τ) :
    (!nanLessB b a) = ordOKB a.Fitness b.Fitness := by
  unfold nanLessB ordOKB
  rcases ha : a.Fitness with _ | x
  · rcases hb : b.Fitness with _ | y
    · rfl
    · rfl
  · rcases hb : b.Fitness with _ | y
    · rfl
    · show (!decide (y < x)) = decide (x ≤ y)
      rw [← decide_not, decide_eq_decide]
      exact not_lt

theorem sortedB_nanLess_fitOrdered {τ : Type} :
    ∀ (l : List (GenomeOf τ)), sortedB nanLessB l = true → fitOrdered l = true := by
  intro l
  induction l with
  | nil => intro _; rfl
  | cons a t ih =>
    intro h
    cases t with
    | nil => rfl
    | cons b t' =>
      have h' : ((!nanLessB b a) && sortedB nanLessB (b :: t')) = true := h
      rcases bandE h' with ⟨h1, h2⟩
      show (ordOKB a.Fitness b.Fitness && fitOrdered (b :: t')) = true
      exact bandI (nanLess_not_iff_ordOK a b ▸ h1) (ih h2)

theorem sortedB_plain_fitOrdered {τ : Type} :
    ∀ (l : List (GenomeOf τ)), sortedB plainLessB l = true →
      (∀ g ∈ l, g.Fitness ≠ none) → fitOrdered l = true := by
  intro l
  induction l with
  | nil => intro _ _; rfl
  | cons a t ih =>
    intro h hnum
    cases t with
    | nil => rfl
    | cons b t' =>
      have h' : ((!plainLessB b a) && sortedB plainLessB (b :: t')) = true := h
      rcases bandE h' with ⟨h1, h2⟩
      have hrest : fitOrdered (b :: t') = true :=
        ih h2 (fun g hg => hnum g (List.mem_cons_of_mem a hg))
      have hord : ordOKB a.Fitness b.Fitness = true := by
        have hafit := hnum a (by simp)
        have hbfit := hnum b (by simp)
        rcases hfa : a.Fitness with _ | x
        · exact absurd hfa hafit
        · rcases hfb : b.Fitness with _ | y
          · exact absurd hfb hbfit
          · unfold plainLessB fitLtB at h1
            rw [hfa, hfb] at h1
            unfold ordOKB
            simp only [Bool.not_eq_true'] at h1
            simp only [decide_eq_true_eq]
            simp only [decide_eq_false_iff_not] at h1
            exact le_of_not_lt h1
      show (ordOKB a.Fitness b.Fitness && fitOrdered (b :: t')) = true
      exact bandI hord hrest

/-- default genome used only to state index-based properties via `getD` -/
def dummyG {τ : Type} (d : τ) : GenomeOf τ := ⟨d, none⟩

/-- In a `fitOrdered` list a NaN fitness is never followed by a numeric one. -/
theorem fitOrdered_nan_tail {τ : Type} :
    ∀ (l : List (GenomeOf τ)) (i j : Nat) (d : GenomeOf τ), fitOrdered l = true →
      i < j → j < l.length → (l.getD i d).Fitness = none → (l.getD j d).Fitness = none := by
  intro l
  induction l with
  | nil => intro i j d _ _ hj _; simp at hj
  | cons a t ih =>
    intro i j d h hij hj hi
    cases t with
    | nil => simp at hj; omega
    | cons b t' =>
      have h' : (ordOKB a.Fitness b.Fitness && fitOrdered (b :: t')) = true := h
      rcases bandE h' with ⟨h1, h2⟩
      cases i with
      | succ i' =>
        cases j with
        | zero => omega
        | succ j' =>
          exact ih i' j' d h2 (by omega) (by simpa using hj) hi
      | zero =>
        have ha : a.Fitness = none := hi
        have hb : b.Fitness = none := by
          unfold ordOKB at h1
          rcases hbf : b.Fitness with _ | y
          · rfl
          · rw [ha, hbf] at h1; simp at h1
        cases j with
        | zero => omega
        | succ j' =>
          cases j' with
          | zero => exact hb
          | succ j'' =>
            exact ih 0 (j'' + 1) d h2 (by omega) (by simpa using hj) hb

/-- network placeholder type for the sort-level counterexamples; the sort
step is generic in the network payload -/
def UnitNet := Unit

/-- a 258-genome population for the C3 counterexample: one NaN genome, one
numeric genome of fitness 1, then 256 genomes of fitness 2 -/
def c3pop : List (GenomeOf UnitNet) :=
  ⟨(), none⟩ :: ⟨(), some 1⟩ :: List.replicate 256 ⟨(), some 2⟩

theorem sortedB_plain_replicate (k : Nat) :
    sortedB plainLessB (List.replicate k (⟨(), some 2⟩ : GenomeOf UnitNet)) = true := by
  induction k with
  | zero => rfl
  | succ n ih =>
    cases n with
    | zero => rfl
    | succ m =>
      show ((!plainLessB ⟨(), some 2⟩ ⟨(), some 2⟩) &&
        sortedB plainLessB (List.replicate (m + 1) ⟨(), some 2⟩)) = true
      refine bandI ?_ ih
      with_unfolding_all decide

/-- C3 counterexample.  `RealNetworkModel` and `RandomNetworkModel` sort with
the plain comparator `Fitness < Fitness`, under which NaN compares false both
ways.  The 258-element population `c3pop` (a NaN genome first, then fitness 1,
then 256 genomes of fitness 2) is already "sorted" in Go's observable sense
(`sort.SliceIsSorted` holds, and it is trivially a permutation of itself), yet
after truncation to `NumGenomes = 256` the kept genomes start with a NaN
genome placed before a numeric one: the kept population is neither in
non-decreasing fitness order nor NaN-last. -/
theorem c3_truncate_counterexample :
    goSortedOK plainLessB c3pop c3pop ∧
    (c3pop.take NumGenomes).length = NumGenomes ∧
    ((c3pop.take NumGenomes).getD 0 (dummyG ())).Fitness = none ∧
    ((c3pop.take NumGenomes).getD 1 (dummyG ())).Fitness = some 1 ∧
    fitOrdered (c3pop.take NumGenomes) = false := by
  refine ⟨⟨List.Perm.refl _, ?_⟩, ?_, ?_, ?_, ?_⟩
  · show sortedB plainLessB
      (⟨(), none⟩ :: ⟨(), some 1⟩ :: List.replicate 256 ⟨(), some 2⟩) = true
    show ((!plainLessB ⟨(), some 1⟩ ⟨(), none⟩) &&
      sortedB plainLessB (⟨(), some 1⟩ :: List.replicate 256 ⟨(), some 2⟩)) = true
    refine bandI (by with_unfolding_all decide) ?_
    show ((!plainLessB ⟨(), some 2⟩ ⟨(), some 1⟩) &&
      sortedB plainLessB (List.replicate 256 ⟨(), some 2⟩)) = true
    exact bandI (by with_unfolding_all decide) (sortedB_plain_replicate 256)
  · with_unfolding_all decide
  · rfl
  · rfl
  · rfl

/-- C3 (corrected).  After every Select&Truncate step the population size is
exactly `NumGenomes` (the pre-truncation population always has at least
`NumGenomes` elements).  The kept genomes are in monotonically non-decreasing
fitness order with NaN last in the `SharedNetworkModel` /
`ComplexNetworkModel` variants, whose comparator treats NaN explicitly; in
the `RealNetworkModel` / `RandomNetworkModel` variants the comparator has no
NaN branch, and the order is only guaranteed when every fitness in the sorted
population is numeric (non-NaN) — see the counterexample. -/
theorem c3_truncate_invariant {τ : Type}
    (less : GenomeOf τ → GenomeOf τ → Bool) (inp out inp2 out2 : List (GenomeOf τ))
    (h : goSortedOK less inp out) (hlen : NumGenomes ≤ inp.length)
    (h2 : goSortedOK nanLessB inp2 out2) :
    (out.take NumGenomes).length = NumGenomes ∧
    fitOrdered (out2.take NumGenomes) = true ∧
    (less = plainLessB → (∀ g ∈ out, g.Fitness ≠ none) →
      fitOrdered (out.take NumGenomes) = true) := by
  refine ⟨?_, ?_, ?_⟩
  · have hl : out.length = inp.length := (h.1.length_eq).symm
    simp [List.length_take, hl]
    omega
  · exact sortedB_nanLess_fitOrdered _ (sortedB_take _ _ _ h2.2)
  · intro hless hnum
    refine sortedB_plain_fitOrdered _ ?_ ?_
    · rw [← hless]; exact sortedB_take less out NumGenomes h.2
    · intro g hg
      exact hnum g (List.take_subset _ _ hg)

theorem c3_truncate_invariant_witness :
    ((List.replicate 256 (⟨(), some 2⟩ : GenomeOf UnitNet)).take NumGenomes).length
        = NumGenomes ∧
    fitOrdered (([⟨(), some 1⟩, ⟨(), none⟩] :
        List (GenomeOf UnitNet)).take NumGenomes) = true ∧
    ((plainLessB : GenomeOf UnitNet → GenomeOf UnitNet → Bool) = plainLessB →
      (∀ g ∈ List.replicate 256 (⟨(), some 2⟩ : GenomeOf UnitNet), g.Fitness ≠ none) →
      fitOrdered ((List.replicate 256
        (⟨(), some 2⟩ : GenomeOf UnitNet)).take NumGenomes) = true) :=
  c3_truncate_invariant plainLessB
    (List.replicate 256 ⟨(), some 2⟩) (List.replicate 256 ⟨(), some 2⟩)
    [⟨(), some 1⟩, ⟨(), none⟩] [⟨(), some 1⟩, ⟨(), none⟩]
    ⟨List.Perm.refl _, sortedB_plain_replicate 256⟩
    (by with_unfolding_all decide)
    ⟨List.Perm.refl _, by with_unfolding_all decide⟩

/-- the two-genome population of the C4 counterexample: a NaN genome ahead of
a finite one -/
def c4pop : List (GenomeOf UnitNet) := [⟨(), none⟩, ⟨(), some 5⟩]

/-- C4 counterexample.  In `RandomNetworkModel` (and `RealNetworkModel`) the
sort comparator is the plain `Fitness < Fitness`, under which a NaN fitness
compares false against everything in both directions; it is NOT ordered as
worst-possible.  The population `c4pop` with a NaN genome placed before a
finite-fitness genome satisfies the sort postcondition unchanged, so the sort
step may keep the NaN genome ahead of (and, under truncation, in preference
to) the finite one. -/
theorem c4_nan_counterexample :
    plainLessB (⟨(), some 5⟩ : GenomeOf UnitNet) ⟨(), none⟩ = false ∧
    plainLessB (⟨(), none⟩ : GenomeOf UnitNet) ⟨(), some 5⟩ = false ∧
    goSortedOK plainLessB c4pop c4pop ∧
    ((c4pop.getD 0 (dummyG ())).Fitness = none ∧
      (c4pop.getD 1 (dummyG ())).Fitness = some 5) := by
  refine ⟨rfl, rfl, ⟨List.Perm.refl _, rfl⟩, rfl, rfl⟩

/-- C4 (corrected).  A NaN fitness is ordered as worst-possible in the
variants that use the NaN-aware comparator (`SharedNetworkModel`,
`ComplexNetworkModel`): in any sort result, a NaN genome never appears before
a genome with numeric fitness.  In `RandomNetworkModel` and
`RealNetworkModel` the comparator has no NaN branch and a NaN genome may
sort before, and be kept in preference to, a finite one — see the
counterexample. -/
theorem c4_nan_worst_amended {τ : Type} (inp out : List (GenomeOf τ))
    (h : goSortedOK nanLessB inp out) (i j : Nat) (d : GenomeOf τ)
    (hij : i < j) (hj : j < out.length)
    (hnan : (out.getD i d).Fitness = none) :
    (out.getD j d).Fitness = none :=
  fitOrdered_nan_tail out i j d (sortedB_nanLess_fitOrdered out h.2) hij hj hnan

theorem c4_nan_worst_amended_witness :
    (([⟨(), some 1⟩, ⟨(), none⟩, ⟨(), none⟩] :
      List (GenomeOf UnitNet)).getD 2 (dummyG ())).Fitness = none :=
  c4_nan_worst_amended
    [⟨(), some 1⟩, ⟨(), none⟩, ⟨(), none⟩] [⟨(), some 1⟩, ⟨(), none⟩, ⟨(), none⟩]
    ⟨List.Perm.refl _, by with_unfolding_all decide⟩ 1 2 (dummyG ())
    (by decide) (by decide) rfl

/-! ## Network variants and inference

`float32` arithmetic inside inference is modelled exactly over `ℚ` with the
Go standard-library calls `math.Exp` and `math.Sqrt` abstracted as parameters
`fexp fsqrt : ℚ → ℚ` (theorems take the facts they need about them as
hypotheses).  Draws from the stream use the exact `Rand.Float32` /
`Rand.Uint32` models above. -/

/-- fuel-based helper for `bits.TrailingZeros` -/
def tzAux : Nat → Nat → Nat
  | 0, _ => 0
  | fuel + 1, n => if n % 2 = 1 then 0 else tzAux fuel (n / 2) + 1

/-- Go `bits.TrailingZeros(uint(n))` on a 64-bit platform: 64 for `n = 0`. -/
def trailingZeros (n : Nat) : Nat := if n = 0 then 64 else tzAux 64 n

/-- Go `uint32((1 << t) - 1)` where the shift happens on a 64-bit `int`
(shift count ≥ 64 yields 0, so `t = 64` gives `uint32(-1) = 0xFFFFFFFF`). -/
def uint32Mask (t : Nat) : Nat :=
  ((2 ^ t % 2 ^ 64) + (2 ^ 64 - 1)) % 2 ^ 64 % 2 ^ 32

/-- Go `copy(dst, src)`: the first `min(len dst, len src)` entries of `dst`
are replaced by those of `src`; the rest of `dst` is unchanged. -/
def listCopy (dst src : List ℚ) : List ℚ :=
  src.take (min src.length dst.length) ++ dst.drop (min src.length dst.length)

/-- The `values := make([]float32, columns)` buffer after the unit loop wrote
`values[j]` for `j < |vs|`: the computed prefix, zero elsewhere.  (If
`|vs| > columns` the Go original would panic on the write; the theorems about
the models only use shapes where `|vs| ≤ columns`.) -/
def valuesBuf (columns : Nat) (vs : List ℚ) : List ℚ :=
  vs.take columns ++ List.replicate (columns - vs.length) 0

/-- `RandomLayer` is a random neural network layer (random.go). -/
structure RandomLayer where
  Rows : Nat
  Columns : Nat
  Rand : Rand

/-- `RandomNetwork` is a random neural network. -/
abbrev RandomNetwork := List RandomLayer

/-- `SharedLayer` is a neural network layer with shared weights (shared.go). -/
structure SharedLayer where
  Rows : Nat
  Columns : Nat
  Weights : List ℚ
  Rand : Rand

/-- `SharedNetwork` is a neural network with shared weights. -/
abbrev SharedNetwork := List SharedLayer

/-- `RealLayer` is a neural network layer (shared.go, second part). -/
structure RealLayer where
  Columns : Nat
  Weights : List ℚ
  Biases : List ℚ
  Rand : Rand

/-- `RealNetwork` is a neural network. -/
abbrev RealNetwork := List RealLayer

/-- `func (n RandomNetwork) Copy() RandomNetwork`: rebuilds each layer field
by field (no slice fields, so this is a full value copy). -/
def RandomNetwork.Copy (n : RandomNetwork) : RandomNetwork :=
  n.map (fun layer => { Rows := layer.Rows, Columns := layer.Columns, Rand := layer.Rand })

/-- `func (n SharedNetwork) Copy() SharedNetwork`: fresh backing storage for
`Weights` with the same values, all other fields copied. -/
def SharedNetwork.Copy (n : SharedNetwork) : SharedNetwork :=
  n.map (fun layer =>
    { Rows := layer.Rows, Columns := layer.Columns,
      Weights := layer.Weights, Rand := layer.Rand })

/-- `func (n RealNetwork) Copy() RealNetwork`: fresh backing storage for
`Weights` and `Biases` with the same values. -/
def RealNetwork.Copy (n : RealNetwork) : RealNetwork :=
  n.map (fun layer =>
    { Columns := layer.Columns, Weights := layer.Weights,
      Biases := layer.Biases, Rand := layer.Rand })

theorem randomCopy_eq (n : RandomNetwork) : RandomNetwork.Copy n = n := by
  unfold RandomNetwork.Copy
  have : ∀ layer : RandomLayer,
      ({ Rows := layer.Rows, Columns := layer.Columns, Rand := layer.Rand } :
        RandomLayer) = layer := fun _ => rfl
  simp [this]

theorem realCopy_eq (n : RealNetwork) : RealNetwork.Copy n = n := by
  unfold RealNetwork.Copy
  have : ∀ layer : RealLayer,
      ({ Columns := layer.Columns, Weights := layer.Weights,
         Biases := layer.Biases, Rand := layer.Rand } : RealLayer) = layer :=
    fun _ => rfl
  simp [this]

/-! ### RandomNetwork.Inference (random.go lines 26-51) -/

/-- inner loop `for _, input := range inputs { sum += input * (2*rnd.Float32() - 1) * factor }` -/
def randomRowSum (factor : ℚ) : List ℚ → ℚ → Rand → ℚ × Rand
  | [], acc, r => (acc, r)
  | inp :: rest, acc, r =>
    let p := Rand.Float32 r
    randomRowSum factor rest (acc + inp * (2 * p.1 - 1) * factor) p.2

/-- unit loop `for j := 0; j < layer.Rows; j++`: each unit draws its bias-like
initial term and one noise weight per input, then applies the logistic
squashing `e / (e + 1)`. -/
def randomUnits (fexp : ℚ → ℚ) (factor : ℚ) (inputs : List ℚ) :
    Nat → Rand → List ℚ × Rand
  | 0, r => ([], r)
  | rows + 1, r =>
    let p := Rand.Float32 r
    let row := randomRowSum factor inputs ((2 * p.1 - 1) * factor) p.2
    let e := fexp row.1
    let rest := randomUnits fexp factor inputs rows row.2
    (e / (e + 1) :: rest.1, rest.2)

/-- `func (n RandomNetwork) Inference(inputs, outputs []float32)`.
The per-layer stream is a local copy `rnd := layer.Rand`; no field of any
stored layer is assigned, so the network the caller retains after the call is
returned unchanged as the second component.  The first component is the
contents of the caller's `outputs` buffer after the call. -/
def RandomNetwork.Inference (fexp fsqrt : ℚ → ℚ) :
    RandomNetwork → List ℚ → List ℚ → List ℚ × RandomNetwork
  | [], _, outputs => (outputs, [])
  | [layer], inputs, outputs =>
    let columns := outputs.length
    let factor := fsqrt (2 / (columns : ℚ))
    let us := randomUnits fexp factor inputs layer.Rows layer.Rand
    (listCopy outputs (valuesBuf columns us.1), [layer])
  | layer :: next :: rest, inputs, outputs =>
    let columns := next.Columns
    let factor := fsqrt (2 / (columns : ℚ))
    let us := randomUnits fexp factor inputs layer.Rows layer.Rand
    let res := RandomNetwork.Inference fexp fsqrt (next :: rest)
      (valuesBuf columns us.1) outputs
    (res.1, layer :: res.2)

/-! ### SharedNetwork.Inference (shared.go lines 28-53); no biases, a single
pool of weights indexed by masked draws, no scaling factor -/

/-- inner loop `for k := 0; k < layer.Columns; k++ { sum += inputs[k] * layer.Weights[rnd.Uint32()&mask] }`
(`inputs[k]` would panic in Go for `k ≥ len(inputs)`; modelled with `getD`,
and only used with adequate shapes) -/
def sharedRowSum (weights : List ℚ) (mask : Nat) (inputs : List ℚ) :
    Nat → Nat → ℚ → Rand → ℚ × Rand
  | 0, _, acc, r => (acc, r)
  | cnt + 1, k, acc, r =>
    let u := Rand.Uint32 r
    sharedRowSum weights mask inputs cnt (k + 1)
      (acc + inputs.getD k 0 * weights.getD (Nat.land u.1 mask) 0) u.2

/-- unit loop `for j := 0; j < layer.Rows; j++`: seed term
`layer.Weights[rnd.Uint32()&mask]`, then the inner sum, then the logistic. -/
def sharedUnits (fexp : ℚ → ℚ) (weights : List ℚ) (mask columnsN : Nat)
    (inputs : List ℚ) : Nat → Rand → List ℚ × Rand
  | 0, r => ([], r)
  | rows + 1, r =>
    let u := Rand.Uint32 r
    let row := sharedRowSum weights mask inputs columnsN 0
      (weights.getD (Nat.land u.1 mask) 0) u.2
    let e := fexp row.1
    let rest := sharedUnits fexp weights mask columnsN inputs rows row.2
    (e / (e + 1) :: rest.1, rest.2)

/-- `func (n SharedNetwork) Inference(inputs, outputs []float32)`, with
`mask = uint32((1 << bits.TrailingZeros(uint(len(layer.Weights)))) - 1)`. -/
def SharedNetwork.Inference (fexp : ℚ → ℚ) :
    SharedNetwork → List ℚ → List ℚ → List ℚ × SharedNetwork
  | [], _, outputs => (outputs, [])
  | [layer], inputs, outputs =>
    let columns := outputs.length
    let mask := uint32Mask (trailingZeros layer.Weights.length)
    let us := sharedUnits fexp layer.Weights mask layer.Columns inputs
      layer.Rows layer.Rand
    (listCopy outputs (valuesBuf columns us.1), [layer])
  | layer :: next :: rest, inputs, outputs =>
    let columns := next.Columns
    let mask := uint32Mask (trailingZeros layer.Weights.length)
    let us := sharedUnits fexp layer.Weights mask layer.Columns inputs
      layer.Rows layer.Rand
    let res := SharedNetwork.Inference fexp (next :: rest)
      (valuesBuf columns us.1) outputs
    (res.1, layer :: res.2)

/-! ### RealNetwork.Inference (shared.go lines 255-285): one explicit weight
and bias per unit, the addressed input index drawn per unit, all other
synapses synthesized from the stream -/

/-- inner loop `for k, input := range inputs`: the drawn index gets the
explicit weight, all other inputs get fresh noise draws. -/
def realRowSum (factor w : ℚ) (index : Nat) : List ℚ → Nat → ℚ → Rand → ℚ × Rand
  | [], _, acc, r => (acc, r)
  | inp :: rest, k, acc, r =>
    if k = index then realRowSum factor w index rest (k + 1) (acc + inp * w) r
    else
      let p := Rand.Float32 r
      realRowSum factor w index rest (k + 1)
        (acc + inp * (2 * p.1 - 1) * factor) p.2

/-- unit loop `for j, weight := range layer.Weights` with
`sum, index := layer.Biases[j], rnd.Uint32()&mask` (`Biases[j]` panics in Go
if the bias vector is shorter than the weight vector; modelled with `getD`
and only used with equal-length shapes). -/
def realUnits (fexp : ℚ → ℚ) (factor : ℚ) (mask : Nat) (biases inputs : List ℚ) :
    List ℚ → Nat → Rand → List ℚ × Rand
  | [], _, r => ([], r)
  | w :: ws, j, r =>
    let u := Rand.Uint32 r
    let row := realRowSum factor w (Nat.land u.1 mask) inputs 0
      (biases.getD j 0) u.2
    let e := fexp row.1
    let rest := realUnits fexp factor mask biases inputs ws (j + 1) row.2
    (e / (e + 1) :: rest.1, rest.2)

/-- `func (n RealNetwork) Inference(inputs, outputs []float32)`, with
`mask = uint32((1 << bits.TrailingZeros(uint(layer.Columns))) - 1)` and
`factor = float32(math.Sqrt(2 / float64(columns)))`. -/
def RealNetwork.Inference (fexp fsqrt : ℚ → ℚ) :
    RealNetwork → List ℚ → List ℚ → List ℚ × RealNetwork
  | [], _, outputs => (outputs, [])
  | [layer], inputs, outputs =>
    let columns := outputs.length
    let factor := fsqrt (2 / (columns : ℚ))
    let mask := uint32Mask (trailingZeros layer.Columns)
    let us := realUnits fexp factor mask layer.Biases inputs
      layer.Weights 0 layer.Rand
    (listCopy outputs (valuesBuf columns us.1), [layer])
  | layer :: next :: rest, inputs, outputs =>
    let columns := next.Columns
    let factor := fsqrt (2 / (columns : ℚ))
    let mask := uint32Mask (trailingZeros layer.Columns)
    let us := realUnits fexp factor mask layer.Biases inputs
      layer.Weights 0 layer.Rand
    let res := RealNetwork.Inference fexp fsqrt (next :: rest)
      (valuesBuf columns us.1) outputs
    (res.1, layer :: res.2)

/-! ### C2: inference leaves the network unchanged and is repeatable -/

/-- one scan of `for i, genome := range genomes { if rnd.Float32() > genome.Fitness { return i } }` -/
def scanPop {τ : Type} : List (GenomeOf τ) → Nat → Rand → Rand × Option Nat
  | [], _, r => (r, none)
  | g :: gs, i, r =>
    if fltGtB (Rand.Float32 r).1 g.Fitness then ((Rand.Float32 r).2, some i)
    else scanPop gs (i + 1) (Rand.Float32 r).2

/-- the `get` closure: retry full scans until one accepts (fuelled) -/
def getF {τ : Type} : Nat → Rand → List (GenomeOf τ) → Option (Nat × Rand)
  | 0, _, _ => none
  | fuel + 1, r, gs =>
    match scanPop gs 0 r with
    | (r', some i) => some (i, r')
    | (r', none) => getF fuel r' gs

theorem scanPop_index {τ : Type} :
    ∀ (gs : List (GenomeOf τ)) (i : Nat) (r r' : Rand) (k : Nat),
      scanPop gs i r = (r', some k) → i ≤ k ∧ k - i < gs.length := by
  intro gs
  induction gs with
  | nil => intro i r r' k h; cases h
  | cons g gs' ih =>
    intro i r r' k h
    unfold scanPop at h
    split at h
    · rcases h with ⟨⟩
      refine ⟨le_refl i, ?_⟩
      simp only [List.length_cons]
      omega
    · rcases ih (i + 1) _ _ k h with ⟨h1, h2⟩
      constructor
      · omega
      · simp only [List.length_cons]; omega

theorem getF_index {τ : Type} :
    ∀ (fuel : Nat) (r : Rand) (gs : List (GenomeOf τ)) (k : Nat) (r' : Rand),
      getF fuel r gs = some (k, r') → k < gs.length := by
  intro fuel
  induction fuel with
  | zero => intro r gs k r' h; cases h
  | succ n ih =>
    intro r gs k r' h
    unfold getF at h
    cases hsc : scanPop gs 0 r with
    | mk r2 res =>
      rw [hsc] at h
      cases res with
      | some i =>
        have h' : some (i, r2) = some (k, r') := h
        have hbound := scanPop_index gs 0 r r2 i hsc
        have hk : k = i := by
          injection h' with h2
          exact (congrArg Prod.fst h2).symm
        omega
      | none => exact ih _ _ _ _ h

/-! ### RandomNetworkModel crossover (random.go lines 145-155).

`layerA := networkA[layer]` copies the struct (a `RandomLayer` has no slice
fields), so the assignment `layerA.Rand = layerA.Rand ^ layerB.Rand` mutates
only the local copy, which is then discarded; only `networkA` — untouched —
is appended, and nothing derived from parent B is appended. -/

def randomCrossOnce (fuel : Nat) (r : Rand) (gs : List (GenomeOf RandomNetwork)) :
    Option (List (GenomeOf RandomNetwork) × Rand) :=
  match getF fuel r gs with
  | none => none
  | some (a, r1) =>
    match getF fuel r1 gs with
    | none => none
    | some (b, r2) =>
      match gs.get? a, gs.get? b with
      | some ga, some gb =>
        match (RandomNetwork.Copy ga.Network).get? (Nat.land (Rand.Uint32 r2).1 1),
            (RandomNetwork.Copy gb.Network).get? (Nat.land (Rand.Uint32 r2).1 1) with
        | some _layerA, some _layerB =>
          -- the XOR `layerA.Rand = layerA.Rand ^ layerB.Rand` lands on the
          -- local struct copy `layerA` and is discarded; only the unmodified
          -- `networkA` is appended, with the Go zero fitness 0.0
          some (gs ++ [⟨RandomNetwork.Copy ga.Network, some 0⟩], (Rand.Uint32 r2).2)
        | _, _ => none
      | _, _ => none

theorem randomCrossOnce_spec (fuel : Nat) (r : Rand)
    (gs gs' : List (GenomeOf RandomNetwork)) (r' : Rand)
    (h : randomCrossOnce fuel r gs = some (gs', r')) :
    ∃ (a b : Nat) (r1 r2 : Rand) (ga : GenomeOf RandomNetwork),
      getF fuel r gs = some (a, r1) ∧
      getF fuel r1 gs = some (b, r2) ∧
      gs.get? a = some ga ∧
      gs' = gs ++ [⟨ga.Network, some 0⟩] := by
  unfold randomCrossOnce at h
  rcases hg1 : getF fuel r gs with _ | ⟨a, r1⟩ <;> rw [hg1] at h
  · cases h
  · dsimp only at h
    rcases hg2 : getF fuel r1 gs with _ | ⟨b, r2⟩ <;> rw [hg2] at h
    · cases h
    · dsimp only at h
      split at h
      · rename_i ga gb hga hgb
        split at h
        · rcases h with ⟨⟩
          exact ⟨a, b, r1, r2, ga, rfl, hg2, hga,
            by rw [randomCopy_eq]⟩
        · cases h
      · cases h

/-- the two layers of every genome built by `RandomNetworkModel`:
rows/columns 4×4 and 3×4 with per-layer seeds -/
def demoRandomNet : RandomNetwork :=
  [⟨4, 4, LFSRInit + NumGenomes⟩, ⟨3, 4, LFSRInit + 2 * NumGenomes⟩]

/-- a small population of evaluated genomes (fitness 0) used to exercise the
random-variant crossover concretely -/
def demoRandomPop : List (GenomeOf RandomNetwork) :=
  [⟨demoRandomNet, some 0⟩, ⟨demoRandomNet, some 0⟩]

/-- C10 (confirmed).  In `RandomNetworkModel`'s crossover, the single
appended offspring's network is exactly parent A's network at selection time
(`Copy` rebuilds each layer with the same `Rows`, `Columns` and `Rand` seed,
and the XOR of the parents' layer seeds is assigned to a discarded local
struct copy): the appended genome's network equals `ga.Network` itself, and
nothing derived from parent B is appended — the population grows by exactly
the one genome `⟨ga.Network, 0⟩`. -/
theorem c10_random_crossover_offspring (fuel : Nat) (r : Rand)
    (gs gs' : List (GenomeOf RandomNetwork)) (r' : Rand)
    (h : randomCrossOnce fuel r gs = some (gs', r')) :
    ∃ (a b : Nat) (r1 r2 : Rand) (ga : GenomeOf RandomNetwork),
      getF fuel r gs = some (a, r1) ∧
      getF fuel r1 gs = some (b, r2) ∧
      gs.get? a = some ga ∧
      RandomNetwork.Copy ga.Network = ga.Network ∧
      gs' = gs ++ [⟨ga.Network, some 0⟩] ∧
      gs'.length = gs.length + 1 := by
  rcases randomCrossOnce_spec fuel r gs gs' r' h with ⟨a, b, r1, r2, ga, h1, h2, h3, h4⟩
  exact ⟨a, b, r1, r2, ga, h1, h2, h3, randomCopy_eq _, h4, by rw [h4]; simp⟩

theorem c10_random_crossover_offspring_witness :
    Option.map (fun p => p.1.length) (randomCrossOnce 3 LFSRInit demoRandomPop)
      = some 3 := by
  rcases hx : randomCrossOnce 3 LFSRInit demoRandomPop with _ | ⟨gs', r'⟩
  · have hs : (randomCrossOnce 3 LFSRInit demoRandomPop).isSome = true := by
      with_unfolding_all rfl
    rw [hx] at hs
    cases hs
  · rcases c10_random_crossover_offspring 3 LFSRInit demoRandomPop gs' r' hx
      with ⟨a, b, r1, r2, ga, _, _, _, _, _, hlen⟩
    show some gs'.length = some 3
    rw [hlen]
    rfl

end Rndnet
